import Mathlib

/-!
Verification of the BeeFileStore storage subsystem.

The definitions below are a shallow embedding of the repository's code:
`detectCategory`, `saveFileBlob` / `getFileBlob` / `deleteFileBlob` (the
IndexedDB blob store, modelled as an association list with put-overwrites
semantics), `getMetadata` / `saveMetadata` (the localStorage metadata
index, modelled as the `metadata` field of `Store`), `formatFileSize`,
and the catalog operations `handleUpload`, `handleDelete`, the
`filteredFiles` memo and the `storageUsage` memo from `App.tsx`.

JavaScript strings are modelled as Lean `String`; `String.includes`,
`String.startsWith` and `toLowerCase` are embedded as `strContains`,
`strStartsWith` and `strLower` over the character lists.  JavaScript
numbers are modelled exactly (`Nat` / `Int` / rationals where rounding
matters); `toFixed` rounding is modelled as round-half-up.
Asynchronous failure of an IndexedDB request (a rejected promise) is
modelled by a caller-supplied oracle (`wf` for blob writes, `df` for
blob deletes); `Math.random` id generation is modelled by a caller
supplied id stream `ids : Nat → String`.
-/

namespace BeeStore

/-- Categories from `types.ts` (`FileCategory`); `all` only occurs as the
UI filter value, `detectCategory` never produces it. -/
inductive FileCategory where
  | all
  | images
  | videos
  | documents
  | others
deriving DecidableEq, BEq

/-- The TS string value of each category (used by the category sort,
which calls `localeCompare` on the category strings). -/
def categoryName : FileCategory → String
  | .all => "all"
  | .images => "images"
  | .videos => "videos"
  | .documents => "documents"
  | .others => "others"

/-- `StorageStatus` from `types.ts`. -/
inductive StorageStatus where
  | IDLE
  | UPLOADING
  | SUCCESS
  | ERROR
deriving DecidableEq

/-- `needle.isPrefixOf hay || contains of the tail`: embedding of
JavaScript `hay.includes(needle)` on character lists. -/
def containsSub (needle : List Char) : List Char → Bool
  | [] => needle.isEmpty
  | c :: t => needle.isPrefixOf (c :: t) || containsSub needle t

/-- JavaScript `s.includes(sub)`. -/
def strContains (s sub : String) : Bool := containsSub sub.data s.data

/-- JavaScript `s.startsWith(p)`. -/
def strStartsWith (s p : String) : Bool := p.data.isPrefixOf s.data

/-- JavaScript `s.toLowerCase()` (modelled character-wise). -/
def strLower (s : String) : String := ⟨s.data.map Char.toLower⟩

/-- `detectCategory` from `storageService.ts`: image/ and video/ prefix
checks, then substring checks for pdf, text, word, presentation, sheet. -/
def detectCategory (mimeType : String) : FileCategory :=
  if strStartsWith mimeType "image/" then .images
  else if strStartsWith mimeType "video/" then .videos
  else if strContains mimeType "pdf" || strContains mimeType "text" ||
      strContains mimeType "word" || strContains mimeType "presentation" ||
      strContains mimeType "sheet" then .documents
  else .others

/-- Classifier written from the words of claim C4 (which say the third
rule matches the substring `spreadsheet`); kept separate from the code's
`detectCategory` so the two can be compared. -/
def classifySpecC4 (mimeType : String) : FileCategory :=
  if strStartsWith mimeType "image/" then .images
  else if strStartsWith mimeType "video/" then .videos
  else if strContains mimeType "pdf" || strContains mimeType "text" ||
      strContains mimeType "word" || strContains mimeType "presentation" ||
      strContains mimeType "spreadsheet" then .documents
  else .others

/-- Raw blob content (byte list). -/
def Blob := List Nat
deriving instance DecidableEq for Blob

/-- An input `File` object handed to `handleUpload` (name, mime type,
size, lastModified, binary content). -/
structure InputFile where
  name : String
  type : String
  size : Nat
  lastModified : Nat
  content : Blob
deriving DecidableEq

/-- `BeeFile` from `types.ts`: one record of the metadata index. -/
structure BeeFile where
  id : String
  blobId : String
  name : String
  type : String
  size : Nat
  lastModified : Nat
  ownerId : String
  category : FileCategory
deriving DecidableEq

/-- The IndexedDB object store: key-addressed blobs.  `put` prepends and
`get` takes the first hit, so a later `put` under the same key
overwrites, as IndexedDB `put` does. -/
def BlobStore := List (String × Blob)
deriving instance DecidableEq for BlobStore

/-- `saveFileBlob` (IndexedDB `store.put(blob, id)`): overwrite semantics. -/
def blobPut (bs : BlobStore) (k : String) (v : Blob) : BlobStore := (k, v) :: bs

/-- `getFileBlob` (IndexedDB `store.get(id)`). -/
def blobGet (bs : BlobStore) (k : String) : Option Blob :=
  (bs.find? (fun e => e.1 == k)).map (fun e => e.2)

/-- `deleteFileBlob` (IndexedDB `store.delete(id)`): removes every entry
under the key; deleting an absent key succeeds. -/
def blobDeleteKey (bs : BlobStore) (k : String) : BlobStore :=
  bs.filter (fun e => !(e.1 == k))

/-- The two persistent stores: the IndexedDB blob store and the
localStorage metadata index (`bee_file_metadata`). -/
structure Store where
  blobs : BlobStore
  metadata : List BeeFile
deriving DecidableEq

/-- The record built inside the `handleUpload` loop for one accepted
file: fresh `id`, `blobId = "blob_" ++ id`, `type` defaulted to
octet-stream when empty, `category = detectCategory(file.type || '')`. -/
def mkBeeFile (id : String) (f : InputFile) (u : String) : BeeFile :=
  ⟨id, "blob_" ++ id, f.name,
    if f.type = "" then "application/octet-stream" else f.type,
    f.size, f.lastModified, u, detectCategory f.type⟩

/-- Result of the `handleUpload` try-block: either every accepted file
was written (`ok` carries the final blob store and the new records), or
some `saveFileBlob` rejected (`err` carries the blob store at the moment
the exception was thrown - earlier writes are kept). -/
inductive UpResult where
  | ok (blobs : BlobStore) (newFiles : List BeeFile)
  | err (blobs : BlobStore)
deriving DecidableEq

/-- The `for` loop of `handleUpload`: skip files over 300 MiB, draw the
next id from the stream, write the blob (the oracle `wf` says which blob
keys reject), collect the new records.  A rejected write aborts the loop
with the blob store as already mutated. -/
def uploadFiles (u : String) (wf : String → Bool) (ids : Nat → String) :
    List InputFile → Nat → BlobStore → UpResult
  | [], _, bs => .ok bs []
  | f :: fs, k, bs =>
    if f.size > 300 * 1024 * 1024 then uploadFiles u wf ids fs k bs
    else
      let bee := mkBeeFile (ids k) f u
      if wf bee.blobId then .err bs
      else
        match uploadFiles u wf ids fs (k + 1) (blobPut bs bee.blobId f.content) with
        | .ok bs2 recs => .ok bs2 (bee :: recs)
        | .err bs2 => .err bs2

/-- `handleUpload` from `App.tsx`: run the loop; on success append the
new records to the loaded metadata and store it (status SUCCESS); on a
thrown write the catch-block only sets status ERROR, the metadata index
is left untouched and nothing is rolled back. -/
def handleUpload (st : Store) (u : String) (files : List InputFile)
    (ids : Nat → String) (wf : String → Bool) :
    Store × List BeeFile × StorageStatus :=
  match uploadFiles u wf ids files 0 st.blobs with
  | .ok bs recs => (⟨bs, st.metadata ++ recs⟩, recs, .SUCCESS)
  | .err bs => (⟨bs, st.metadata⟩, [], .ERROR)

/-- `getMetadata().filter(f => f.ownerId === u.id)`: the owner's view of
the metadata index (used at login and by the UI list). -/
def listFiles (st : Store) (u : String) : List BeeFile :=
  st.metadata.filter (fun f => f.ownerId == u)

/-- Storage-layer actions taken by `handleDelete`, in order. -/
inductive DelEvent where
  | blobDelete (key : String)
  | metaStore
deriving DecidableEq

/-- Result of one `handleDelete` call: final stores, final in-memory
view, whether the awaited blob delete rejected (the exception then
propagates out of the async function), and the trace of storage actions
attempted, in order. -/
structure DeleteOutcome where
  store : Store
  view : List BeeFile
  threw : Bool
  trace : List DelEvent
deriving DecidableEq

/-- `handleDelete` from `App.tsx`: look the id up in the current view;
if absent do nothing (no error of any kind is signalled); otherwise
`await deleteFileBlob(blobId)` - there is no try/catch, so a rejected
delete throws out of the function before the metadata is touched - and
only then filter the record out of the view and the metadata index. -/
def handleDelete (st : Store) (view : List BeeFile) (id : String)
    (df : String → Bool) : DeleteOutcome :=
  match view.find? (fun f => f.id == id) with
  | none => ⟨st, view, false, []⟩
  | some f =>
    if df f.blobId then ⟨st, view, true, [.blobDelete f.blobId]⟩
    else
      ⟨⟨blobDeleteKey st.blobs f.blobId,
          st.metadata.filter (fun r => !(r.id == id))⟩,
        view.filter (fun r => !(r.id == id)),
        false, [.blobDelete f.blobId, .metaStore]⟩

/-- The size filter of the upload loop: the files that are not skipped
(`file.size > 300 * 1024 * 1024` means skip). -/
def accepted (files : List InputFile) : List InputFile :=
  files.filter (fun f => !(decide (f.size > 300 * 1024 * 1024)))

/-- Pair each (accepted) file with the id drawn for it from the stream. -/
def assignIds (ids : Nat → String) : Nat → List InputFile → List (String × InputFile)
  | _, [] => []
  | k, f :: fs => (ids k, f) :: assignIds ids (k + 1) fs

/-- The ids a batch draws from the stream, in order. -/
def assignedIds (ids : Nat → String) (files : List InputFile) : List String :=
  (assignIds ids 0 (accepted files)).map (fun p => p.1)

/-- Perform the batch's blob writes in order. -/
def putAll (bs : BlobStore) : List (String × InputFile) → BlobStore
  | [] => bs
  | (i, f) :: rest => putAll (blobPut bs ("blob_" ++ i) f.content) rest

/-- Build the batch's records in order. -/
def mkRecords (u : String) : List (String × InputFile) → List BeeFile
  | [] => []
  | (i, f) :: rest => mkBeeFile i f u :: mkRecords u rest

/-- One user action against the catalog, with the oracles for id
generation and storage failures fixed per action. -/
inductive Op where
  | upload (files : List InputFile) (ids : Nat → String) (wf : String → Bool)
  | remove (id : String) (df : String → Bool)

/-- Run one action: upload appends the returned records to the
in-memory view (`setFiles(prev ++ newFiles)`); remove updates both.  A
thrown exception leaves everything as `handleUpload` / `handleDelete`
left it. -/
def runOp (u : String) (s : Store × List BeeFile) : Op → Store × List BeeFile
  | .upload files ids wf =>
    let r := handleUpload s.1 u files ids wf
    (r.1, s.2 ++ r.2.1)
  | .remove id df =>
    let o := handleDelete s.1 s.2 id df
    (o.store, o.view)

/-- Run a sequence of actions. -/
def runOps (u : String) : Store × List BeeFile → List Op → Store × List BeeFile
  | s, [] => s
  | s, op :: rest => runOps u (runOp u s op) rest

/-- Empty stores, empty view. -/
def emptyState : Store × List BeeFile := (⟨[], []⟩, [])

/-- The freshness an id generator is trusted to provide (the spec's
"fresh unique id"): a batch's drawn ids are pairwise distinct and do not
occur in the current metadata index.  `Math.random` gives no such
guarantee, which is why this appears as a hypothesis. -/
def freshOk (md : List BeeFile) : Op → Bool
  | .upload files ids _ =>
    decide (assignedIds ids files).Nodup &&
      (assignedIds ids files).all (fun i => md.all (fun r => !(r.id == i)))
  | .remove _ _ => true

/-- Freshness along a whole run, checked at each step's actual state. -/
def freshRun (u : String) : Store × List BeeFile → List Op → Bool
  | _, [] => true
  | s, op :: rest => freshOk s.1.metadata op && freshRun u (runOp u s op) rest

/-- The unit index `Math.floor(Math.log(bytes) / Math.log(1024))` of
`formatFileSize`. -/
def unitIndex (bytes : Nat) : Nat := Nat.log 1024 bytes

/-- The label array `['Bytes', 'KB', 'MB', 'GB']` of `formatFileSize`. -/
def sizesLabels : List String := ["Bytes", "KB", "MB", "GB"]

/-- Round-half-up division: round(a / b) for b > 0. -/
def roundDiv (a b : Nat) : Nat := (2 * a + b) / (2 * b)

/-- The value `(bytes / 1024^i).toFixed(2)` of `formatFileSize`, kept as
an integer number of hundredths. -/
def sizeHundredths (bytes : Nat) : Nat :=
  roundDiv (100 * bytes) (1024 ^ unitIndex bytes)

/-- Decimal rendering of a number of hundredths the way JavaScript
prints `parseFloat(x.toFixed(2))`: trailing zeros (and a trailing dot)
are dropped. -/
def renderTrim (h : Nat) : String :=
  if h % 100 == 0 then toString (h / 100)
  else if h % 10 == 0 then toString (h / 100) ++ "." ++ toString (h / 10 % 10)
  else toString (h / 100) ++ "." ++
    (if h % 100 < 10 then "0" else "") ++ toString (h % 100)

/-- The unit label `sizes[i]` of `formatFileSize`; an out-of-range index
reads `undefined`, which string concatenation renders as "undefined". -/
def unitLabel (bytes : Nat) : String :=
  (sizesLabels.get? (unitIndex bytes)).getD "undefined"

/-- `formatFileSize` from `storageService.ts`. -/
def formatFileSize (bytes : Nat) : String :=
  if bytes == 0 then "0 Bytes"
  else renderTrim (sizeHundredths bytes) ++ " " ++ unitLabel bytes

/-- `Math.min((total / quota) * 100, 100).toFixed(1)` of `storageUsage`,
kept as an integer number of tenths (quota is the code's fixed
`1024 * 1024 * 1024 * 2`). -/
def percentTenths (total : Nat) : Nat :=
  if total ≥ 1024 * 1024 * 1024 * 2 then 1000
  else roundDiv (1000 * total) (1024 * 1024 * 1024 * 2)

/-- Decimal rendering of a number of tenths the way `toFixed(1)` prints
it (always exactly one decimal). -/
def renderTenths (t : Nat) : String :=
  toString (t / 10) ++ "." ++ toString (t % 10)

/-- The `storageUsage` memo of `App.tsx`: total = fold of the sizes,
formatted total and capped percentage. -/
def storageUsage (files : List BeeFile) : String × String :=
  let total := files.foldl (fun acc f => acc + f.size) 0
  (formatFileSize total, renderTenths (percentTenths total))

/-- The sort key of the `filteredFiles` memo. -/
inductive SortBy where
  | name
  | size
  | date
  | category
deriving DecidableEq

/-- The sort order of the `filteredFiles` memo. -/
inductive SortOrder where
  | asc
  | desc
deriving DecidableEq

/-- Three-way lexicographic comparison of character lists; the model of
JavaScript `localeCompare` (locale effects are out of scope, character
order is code-point order). -/
def charListCompare : List Char → List Char → Int
  | [], [] => 0
  | [], _ :: _ => -1
  | _ :: _, [] => 1
  | a :: as, b :: bs =>
    if a < b then -1 else if b < a then 1 else charListCompare as bs

/-- `a.localeCompare(b)` model. -/
def strCompare (a b : String) : Int := charListCompare a.data b.data

/-- The comparator body of the `filteredFiles` memo (`comp`). -/
def cmpFiles (sb : SortBy) (a b : BeeFile) : Int :=
  match sb with
  | .name => strCompare a.name b.name
  | .size => (a.size : Int) - (b.size : Int)
  | .date => (a.lastModified : Int) - (b.lastModified : Int)
  | .category => strCompare (categoryName a.category) (categoryName b.category)

/-- `sortOrder === 'asc' ? comp : -comp`. -/
def effCmp (sb : SortBy) (so : SortOrder) (a b : BeeFile) : Int :=
  match so with
  | .asc => cmpFiles sb a b
  | .desc => -(cmpFiles sb a b)

/-- The filter of the `filteredFiles` memo: case-insensitive substring
match on the name, and category match unless the active category is
`all`. -/
def matchesFilter (search : String) (cat : FileCategory) (f : BeeFile) : Bool :=
  strContains (strLower f.name) (strLower search) &&
    (cat == .all || f.category == cat)

/-- Insert `x` behind every element strictly smaller under `lt`; the
insertion step of a stable sort. -/
def insertSorted (lt : α → α → Bool) (x : α) : List α → List α
  | [] => [x]
  | y :: ys => if lt y x then y :: insertSorted lt x ys else x :: y :: ys

/-- Stable insertion sort; the model of `Array.prototype.sort`, which
ECMAScript requires to be stable. -/
def sortStable (lt : α → α → Bool) : List α → List α
  | [] => []
  | x :: xs => insertSorted lt x (sortStable lt xs)

/-- The `filteredFiles` memo of `App.tsx`: filter, then stable sort by
the comparator. -/
def filteredFiles (files : List BeeFile) (search : String)
    (cat : FileCategory) (sb : SortBy) (so : SortOrder) : List BeeFile :=
  sortStable (fun a b => decide (effCmp sb so a b < 0))
    (files.filter (matchesFilter search cat))

/-! Concrete instances used by counterexamples and witnesses. -/

/-- A record used by the C1 counterexample scenario. -/
def recC1 : BeeFile := ⟨"a", "blob_a", "a.txt", "text/plain", 3, 5, "u", .documents⟩

/-- Stores holding exactly `recC1` and its blob. -/
def stC1 : Store := ⟨[("blob_a", [7, 8, 9])], [recC1]⟩

/-- A record used by the C1 witness scenario. -/
def recC1w : BeeFile := ⟨"b", "blob_b", "b.png", "image/png", 2, 6, "u", .images⟩

/-- Stores holding exactly `recC1w` and its blob. -/
def stC1w : Store := ⟨[("blob_b", [1])], [recC1w]⟩

/-- A record used by the C2 scenarios. -/
def recC2 : BeeFile := ⟨"a", "blob_a", "a.txt", "text/plain", 3, 5, "u", .documents⟩

/-- Stores holding exactly `recC2` and its blob. -/
def stC2 : Store := ⟨[("blob_a", [7])], [recC2]⟩

/-- Input files used by the C3 witness scenario. -/
def fC3a : InputFile := ⟨"a.txt", "text/plain", 3, 5, [1, 2, 3]⟩

/-- Second input file of the C3 witness scenario (its write fails). -/
def fC3b : InputFile := ⟨"b.txt", "text/plain", 4, 6, [4, 5]⟩

/-- Oversized input file for C5 (300 MiB plus one byte). -/
def fBigC5 : InputFile := ⟨"big.bin", "", 300 * 1024 * 1024 + 1, 9, [0]⟩

/-- A pre-existing record of owner "u" for the C6 counterexample. -/
def r0C6 : BeeFile := ⟨"z", "blob_z", "old.txt", "text/plain", 1, 1, "u", .documents⟩

/-- First input file of the C6 counterexample batch. -/
def f1C6 : InputFile := ⟨"one.txt", "text/plain", 1, 1, [1]⟩

/-- Second input file of the C6 counterexample batch (colliding id). -/
def f2C6 : InputFile := ⟨"two.txt", "text/plain", 1, 2, [2]⟩

/-- First input file of the C6 witness batch. -/
def f1C6w : InputFile := ⟨"one.txt", "text/plain", 1, 1, [1]⟩

/-- Second input file of the C6 witness batch. -/
def f2C6w : InputFile := ⟨"two.txt", "text/plain", 1, 2, [2]⟩

/-- Record with the given size, for the C8 usage example. -/
def szRec (n : Nat) : BeeFile := ⟨"i", "blob_i", "f", "text/plain", n, 0, "u", .documents⟩

/-- First input file of the C9 scenarios. -/
def f1C9 : InputFile := ⟨"one.txt", "text/plain", 1, 1, [1]⟩

/-- Second input file of the C9 scenarios. -/
def f2C9 : InputFile := ⟨"two.txt", "text/plain", 1, 2, [2]⟩

/-- The operation list of the C9 witness: one fresh two-file upload,
then a remove. -/
def opsC9w : List Op :=
  [Op.upload [f1C9, f2C9] (fun k => toString k) (fun _ => false),
   Op.remove "0" (fun _ => false)]

/-- The record named "b" (earlier in the list) of the C7 example. -/
def recBC7 : BeeFile := ⟨"1", "blob_1", "b", "text/plain", 10, 100, "u", .documents⟩

/-- The record named "a" (later in the list) of the C7 example. -/
def recAC7 : BeeFile := ⟨"2", "blob_2", "a", "text/plain", 10, 200, "u", .documents⟩

/-! Helper lemmas about the embedding. -/

theorem blob_prefix_inj {i j : String} (h : "blob_" ++ i = "blob_" ++ j) : i = j := by
  cases i
  cases j
  simp only [String.ext_iff, String.data_append] at h ⊢
  exact List.append_cancel_left h

theorem uploadFiles_no_fail (u : String) (ids : Nat → String) :
    ∀ (fs : List InputFile) (k : Nat) (bs : BlobStore),
    uploadFiles u (fun _ => false) ids fs k bs =
      .ok (putAll bs (assignIds ids k (accepted fs)))
        (mkRecords u (assignIds ids k (accepted fs))) := by
  intro fs
  induction fs with
  | nil => intro k bs; rfl
  | cons f fs ih =>
    intro k bs
    by_cases h : f.size > 300 * 1024 * 1024
    · simp [uploadFiles, h, accepted, List.filter_cons, ih]
    · simp [uploadFiles, h, accepted, List.filter_cons, assignIds, putAll,
        mkRecords, mkBeeFile, ih]

theorem uploadFiles_err (u : String) (wf : String → Bool) (ids : Nat → String) :
    ∀ (fs : List InputFile) (k : Nat) (bs bs2 : BlobStore),
    uploadFiles u wf ids fs k bs = .err bs2 →
    ∃ pre x post, assignIds ids k (accepted fs) = pre ++ x :: post ∧
      (∀ y ∈ pre, wf ("blob_" ++ y.1) = false) ∧
      wf ("blob_" ++ x.1) = true ∧ bs2 = putAll bs pre := by
  intro fs
  induction fs with
  | nil => intro k bs bs2 h; simp [uploadFiles] at h
  | cons f fs ih =>
    intro k bs bs2 h
    by_cases hsz : f.size > 300 * 1024 * 1024
    · rw [uploadFiles, if_pos hsz] at h
      have := ih k bs bs2 h
      simpa [accepted, List.filter_cons, hsz] using this
    · rw [uploadFiles, if_neg hsz] at h
      by_cases hw : wf (mkBeeFile (ids k) f u).blobId
      · rw [if_pos hw] at h
        cases h
        refine ⟨[], (ids k, f), assignIds ids (k + 1) (accepted fs), ?_, ?_, ?_, rfl⟩
        · simp [accepted, List.filter_cons, hsz, assignIds]
        · intro y hy; simp at hy
        · simpa [mkBeeFile] using hw
      · rw [if_neg hw] at h
        cases hrec : uploadFiles u wf ids fs (k + 1)
            (blobPut bs (mkBeeFile (ids k) f u).blobId f.content) with
        | ok bsr recs => rw [hrec] at h; cases h
        | err bsr =>
          rw [hrec] at h
          cases h
          obtain ⟨pre, x, post, heq, hpre, hx, hbs⟩ := ih (k + 1) _ _ hrec
          refine ⟨(ids k, f) :: pre, x, post, ?_, ?_, hx, ?_⟩
          · simp [accepted, List.filter_cons, hsz, assignIds]
            simpa [accepted] using heq
          · intro y hy
            rcases List.mem_cons.mp hy with hy | hy
            · subst hy; simpa [mkBeeFile] using hw
            · exact hpre y hy
          · simpa [putAll, mkBeeFile] using hbs

theorem uploadFiles_ok_records (u : String) (wf : String → Bool) (ids : Nat → String) :
    ∀ (fs : List InputFile) (k : Nat) (bs bs2 : BlobStore) (recs : List BeeFile),
    uploadFiles u wf ids fs k bs = .ok bs2 recs →
    recs = mkRecords u (assignIds ids k (accepted fs)) := by
  intro fs
  induction fs with
  | nil =>
    intro k bs bs2 recs h
    simp [uploadFiles] at h
    simp [accepted, mkRecords, assignIds, h.2]
  | cons f fs ih =>
    intro k bs bs2 recs h
    by_cases hsz : f.size > 300 * 1024 * 1024
    · rw [uploadFiles, if_pos hsz] at h
      have := ih k bs bs2 recs h
      simpa [accepted, List.filter_cons, hsz] using this
    · rw [uploadFiles, if_neg hsz] at h
      by_cases hw : wf (mkBeeFile (ids k) f u).blobId
      · rw [if_pos hw] at h; cases h
      · rw [if_neg hw] at h
        cases hrec : uploadFiles u wf ids fs (k + 1)
            (blobPut bs (mkBeeFile (ids k) f u).blobId f.content) with
        | ok bsr recsr =>
          rw [hrec] at h
          cases h
          have := ih (k + 1) _ _ _ hrec
          simp [accepted, List.filter_cons, hsz, assignIds, mkRecords]
          simpa [accepted] using this
        | err bsr => rw [hrec] at h; cases h

theorem mkRecords_map_id (u : String) :
    ∀ l : List (String × InputFile),
    (mkRecords u l).map (fun r => r.id) = l.map (fun p => p.1) := by
  intro l
  induction l with
  | nil => rfl
  | cons p rest ih => cases p; simp [mkRecords, mkBeeFile, ih]

theorem mkRecords_owner (u : String) :
    ∀ (l : List (String × InputFile)) (r : BeeFile),
    r ∈ mkRecords u l → r.ownerId = u := by
  intro l
  induction l with
  | nil => intro r h; simp [mkRecords] at h
  | cons p rest ih =>
    intro r h
    cases p
    rcases List.mem_cons.mp h with h | h
    · subst h; rfl
    · exact ih r h

theorem blobGet_blobPut_self (bs : BlobStore) (k : String) (v : Blob) :
    blobGet (blobPut bs k v) k = some v := by
  simp [blobGet, blobPut, List.find?]

theorem blobGet_putAll_of_fresh (k : String) :
    ∀ (l : List (String × InputFile)) (bs : BlobStore),
    (∀ p ∈ l, ¬ ("blob_" ++ p.1 = k)) →
    blobGet (putAll bs l) k = blobGet bs k := by
  intro l
  induction l with
  | nil => intro bs _; rfl
  | cons p rest ih =>
    intro bs hfresh
    cases p with
    | mk i f =>
      rw [putAll, ih _ (fun q hq => hfresh q (List.mem_cons_of_mem _ hq))]
      have hne : ¬ ("blob_" ++ i = k) := hfresh (i, f) (List.mem_cons_self _ _)
      have hb : (("blob_" ++ i) == k) = false := beq_eq_false_iff_ne.mpr hne
      simp [blobGet, blobPut, List.find?, hb]

theorem blobGet_putAll (l : List (String × InputFile))
    (hnd : (l.map (fun p => p.1)).Nodup) :
    ∀ p ∈ l, ∀ bs : BlobStore,
    blobGet (putAll bs l) ("blob_" ++ p.1) = some p.2.content := by
  induction l with
  | nil => intro p h; simp at h
  | cons q rest ih =>
    intro p hp bs
    cases q with
    | mk i f =>
      simp only [List.map_cons, List.nodup_cons] at hnd
      rcases List.mem_cons.mp hp with hp | hp
      · subst hp
        rw [putAll]
        rw [blobGet_putAll_of_fresh _ rest _ ?_]
        · exact blobGet_blobPut_self bs _ f.content
        · intro q hq hcol
          have hqi : q.1 = i := blob_prefix_inj hcol
          exact hnd.1 (List.mem_map.mpr ⟨q, hq, hqi⟩)
      · exact ih hnd.2 p hp _

theorem find?_filter_id_none (view : List BeeFile) (id : String) :
    (view.filter (fun r => !(r.id == id))).find? (fun r => r.id == id) = none := by
  rw [List.find?_eq_none]
  intro x hx
  have hx2 := (List.mem_filter.mp hx).2
  simpa using hx2

theorem delete_metadata_cases (st : Store) (view : List BeeFile) (id : String)
    (df : String → Bool) :
    (handleDelete st view id df).store.metadata = st.metadata ∨
    (handleDelete st view id df).store.metadata =
      st.metadata.filter (fun r => !(r.id == id)) := by
  cases hf : view.find? (fun f => f.id == id) with
  | none => left; simp [handleDelete, hf]
  | some f =>
    by_cases hd : df f.blobId
    · left; simp [handleDelete, hf, hd]
    · right; simp [handleDelete, hf, hd]

/-! Claim theorems. -/

/-- Claim C1, counterexample: with one record ("a") in the view and a
blob delete that rejects, `handleDelete` throws right after the blob
delete attempt: the record is NOT filtered out of the metadata index
(the index still holds `recC1`) and no metadata store happens (the
trace has no `metaStore` event).  This refutes the claim's statement
that on blob-delete failure "the metadata removal still proceeds". -/
theorem delete_blob_failure_counterexample :
    (handleDelete stC1 [recC1] "a" (fun _ => true)).threw = true ∧
    (handleDelete stC1 [recC1] "a" (fun _ => true)).store.metadata = [recC1] ∧
    (handleDelete stC1 [recC1] "a" (fun _ => true)).store.blobs =
      [("blob_a", [7, 8, 9])] ∧
    (handleDelete stC1 [recC1] "a" (fun _ => true)).trace =
      [.blobDelete "blob_a"] := by
  refine ⟨by decide, by decide, by decide, by decide⟩

/-- Claim C1 as amended: the blob deletion is attempted before the
metadata removal (the trace always lists `blobDelete` first), but if
the blob deletion fails the operation aborts: the exception propagates
out of `handleDelete` and the metadata removal does NOT proceed - the
record with the matching id stays in the metadata index.  Only when the
blob delete succeeds is the record filtered out and the result stored. -/
theorem delete_order_and_abort (st : Store) (view : List BeeFile) (id : String)
    (df : String → Bool) (f : BeeFile)
    (hf : view.find? (fun r => r.id == id) = some f) :
    (df f.blobId = true →
      handleDelete st view id df = ⟨st, view, true, [.blobDelete f.blobId]⟩) ∧
    (df f.blobId = false →
      handleDelete st view id df =
        ⟨⟨blobDeleteKey st.blobs f.blobId,
            st.metadata.filter (fun r => !(r.id == id))⟩,
          view.filter (fun r => !(r.id == id)), false,
          [.blobDelete f.blobId, .metaStore]⟩) := by
  constructor
  · intro hd; simp [handleDelete, hf, hd]
  · intro hd; simp [handleDelete, hf, hd]

/-- Witness for the amended C1 theorem at a concrete input. -/
theorem delete_order_and_abort_witness :
    [recC1w].find? (fun r => r.id == "b") = some recC1w ∧
    handleDelete stC1w [recC1w] "b" (fun _ => true) =
      ⟨stC1w, [recC1w], true, [.blobDelete "blob_b"]⟩ :=
  ⟨by decide,
    (delete_order_and_abort stC1w [recC1w] "b" (fun _ => true) recC1w
      (by decide)).1 (by decide)⟩

/-- Claim C2, counterexample: after a successful `remove("a")`, a second
`remove("a")` does NOT return `Error(NotFound)`: the function completes
normally (`threw = false`), signals no error of any kind, and attempts
no storage action at all (empty trace) - the lookup in the view misses
and the body is silently skipped. -/
theorem delete_twice_counterexample :
    handleDelete (handleDelete stC2 [recC2] "a" (fun _ => false)).store
        (handleDelete stC2 [recC2] "a" (fun _ => false)).view "a"
        (fun _ => false) =
      ⟨⟨[], []⟩, [], false, []⟩ := by decide

/-- Claim C2 as amended: after a first successful `remove(id)`, a second
`remove(id)` is a silent no-op - it signals no error (the code has no
NotFound result channel; the missing id just skips the body), performs
no storage action, and leaves the metadata index, the blob store and
the view exactly as the first call left them. -/
theorem delete_twice_noop (st : Store) (view : List BeeFile) (id : String)
    (df df2 : String → Bool) (f : BeeFile)
    (hf : view.find? (fun r => r.id == id) = some f)
    (hdf : df f.blobId = false) :
    (handleDelete st view id df).threw = false ∧
    handleDelete (handleDelete st view id df).store
        (handleDelete st view id df).view id df2 =
      ⟨(handleDelete st view id df).store,
        (handleDelete st view id df).view, false, []⟩ := by
  have h1 : handleDelete st view id df =
      ⟨⟨blobDeleteKey st.blobs f.blobId,
          st.metadata.filter (fun r => !(r.id == id))⟩,
        view.filter (fun r => !(r.id == id)), false,
        [.blobDelete f.blobId, .metaStore]⟩ := by
    simp [handleDelete, hf, hdf]
  rw [h1]
  refine ⟨rfl, ?_⟩
  simp only [handleDelete]
  rw [find?_filter_id_none]

/-- Witness for the amended C2 theorem at a concrete input. -/
theorem delete_twice_noop_witness :
    [recC2].find? (fun r => r.id == "a") = some recC2 ∧
    (fun _ => false) recC2.blobId = false ∧
    ((handleDelete stC2 [recC2] "a" (fun _ => false)).threw = false ∧
      handleDelete (handleDelete stC2 [recC2] "a" (fun _ => false)).store
          (handleDelete stC2 [recC2] "a" (fun _ => false)).view "a"
          (fun _ => true) =
        ⟨(handleDelete stC2 [recC2] "a" (fun _ => false)).store,
          (handleDelete stC2 [recC2] "a" (fun _ => false)).view, false, []⟩) :=
  ⟨by decide, rfl,
    delete_twice_noop stC2 [recC2] "a" (fun _ => false) (fun _ => true) recC2
      (by decide) rfl⟩

/-- Claim C3: if some blob write of the batch throws, `handleUpload`
ends in the aggregate ERROR status with no per-file report, the
metadata index is left unchanged (the index is only written after all
blobs succeed, so no record of the batch is appended), and the blobs
already written for the earlier accepted files of the batch are kept
(not rolled back): the final blob store is exactly the original plus
the writes of the accepted files preceding the failing one. -/
theorem upload_partial_failure_spec (st : Store) (u : String)
    (files : List InputFile) (ids : Nat → String) (wf : String → Bool)
    (bs2 : BlobStore)
    (h : uploadFiles u wf ids files 0 st.blobs = .err bs2) :
    handleUpload st u files ids wf = (⟨bs2, st.metadata⟩, [], .ERROR) ∧
    ∃ pre x post, assignIds ids 0 (accepted files) = pre ++ x :: post ∧
      (∀ y ∈ pre, wf ("blob_" ++ y.1) = false) ∧
      wf ("blob_" ++ x.1) = true ∧ bs2 = putAll st.blobs pre := by
  constructor
  · simp [handleUpload, h]
  · exact uploadFiles_err u wf ids files 0 st.blobs bs2 h

/-- Witness for the C3 theorem: a two-file batch whose second write
rejects keeps the first file's blob, writes no metadata and reports
ERROR. -/
theorem upload_partial_failure_witness :
    uploadFiles "u" (fun s => s == "blob_1") (fun k => toString k)
      [fC3a, fC3b] 0 [] = .err [("blob_0", [1, 2, 3])] ∧
    handleUpload ⟨[], []⟩ "u" [fC3a, fC3b] (fun k => toString k)
      (fun s => s == "blob_1") = (⟨[("blob_0", [1, 2, 3])], []⟩, [], .ERROR) :=
  ⟨by decide,
    (upload_partial_failure_spec ⟨[], []⟩ "u" [fC3a, fC3b] (fun k => toString k)
      (fun s => s == "blob_1") [("blob_0", [1, 2, 3])] (by decide)).1⟩

/-- Claim C5: the upload loop silently skips a file exactly when its
size exceeds 300 * 1024 * 1024 bytes.  With no write failures the batch
succeeds, producing records and blob writes for exactly the
non-oversized files; skipped files produce no per-file error (the
status is the aggregate SUCCESS), no blob write and no metadata
record.  A file of exactly 300 MiB is accepted; one of 300 MiB plus a
byte is dropped. -/
theorem upload_size_limit_spec :
    (∀ (st : Store) (u : String) (files : List InputFile) (ids : Nat → String),
      handleUpload st u files ids (fun _ => false) =
        (⟨putAll st.blobs (assignIds ids 0 (accepted files)),
          st.metadata ++ mkRecords u (assignIds ids 0 (accepted files))⟩,
         mkRecords u (assignIds ids 0 (accepted files)), .SUCCESS)) ∧
    (∀ files : List InputFile, accepted files =
      files.filter (fun f => decide (f.size ≤ 300 * 1024 * 1024))) ∧
    (∀ (st : Store) (u : String) (ids : Nat → String) (f : InputFile),
      f.size = 300 * 1024 * 1024 + 1 →
      handleUpload st u [f] ids (fun _ => false) =
        (⟨st.blobs, st.metadata⟩, [], .SUCCESS)) ∧
    (∀ (st : Store) (u : String) (ids : Nat → String) (f : InputFile),
      f.size = 300 * 1024 * 1024 →
      handleUpload st u [f] ids (fun _ => false) =
        (⟨blobPut st.blobs ("blob_" ++ ids 0) f.content,
          st.metadata ++ [mkBeeFile (ids 0) f u]⟩,
         [mkBeeFile (ids 0) f u], .SUCCESS)) := by
  have hmain : ∀ (st : Store) (u : String) (files : List InputFile)
      (ids : Nat → String),
      handleUpload st u files ids (fun _ => false) =
        (⟨putAll st.blobs (assignIds ids 0 (accepted files)),
          st.metadata ++ mkRecords u (assignIds ids 0 (accepted files))⟩,
         mkRecords u (assignIds ids 0 (accepted files)), .SUCCESS) := by
    intro st u files ids
    simp [handleUpload, uploadFiles_no_fail]
  refine ⟨hmain, ?_, ?_, ?_⟩
  · intro files
    simp only [accepted]
    apply List.filter_congr
    intro f _
    by_cases h : f.size ≤ 300 * 1024 * 1024
    · have h2 : ¬ (f.size > 300 * 1024 * 1024) := by omega
      simp [h, h2]
    · have h2 : f.size > 300 * 1024 * 1024 := by omega
      simp [h, h2]
  · intro st u ids f hsz
    have hacc : accepted [f] = [] := by
      simp [accepted, List.filter_cons, hsz]
    rw [hmain st u [f] ids, hacc]
    simp [assignIds, putAll, mkRecords]
  · intro st u ids f hsz
    have hacc : accepted [f] = [f] := by
      simp [accepted, List.filter_cons, hsz]
    rw [hmain st u [f] ids, hacc]
    simp [assignIds, putAll, mkRecords, mkBeeFile]

/-- Witness for the C5 theorem: a 300 MiB + 1 byte file is silently
dropped - nothing written, empty record list, aggregate SUCCESS. -/
theorem upload_size_limit_witness :
    fBigC5.size = 300 * 1024 * 1024 + 1 ∧
    handleUpload ⟨[], []⟩ "u" [fBigC5] (fun k => toString k) (fun _ => false) =
      (⟨[], []⟩, [], .SUCCESS) :=
  ⟨rfl, upload_size_limit_spec.2.2.1 ⟨[], []⟩ "u" (fun k => toString k) fBigC5 rfl⟩

/-- Claim C6, counterexample: the round-trip property fails as stated.
With a pre-existing record of the same owner in the index and an id
stream that repeats "x" (nothing prevents `Math.random` collisions),
the upload succeeds, but `list("u")` returns the old record "z" in
addition to the written ones, and the two written records share the
blob key "blob_x", under which only the second file's bytes survive:
fetching the first written record's blob does not byte-equal its
original content `[1]`. -/
theorem upload_roundtrip_counterexample :
    (handleUpload ⟨[], [r0C6]⟩ "u" [f1C6, f2C6] (fun _ => "x")
        (fun _ => false)).2.2 = .SUCCESS ∧
    (listFiles (handleUpload ⟨[], [r0C6]⟩ "u" [f1C6, f2C6] (fun _ => "x")
        (fun _ => false)).1 "u").map (fun r => r.id) = ["z", "x", "x"] ∧
    ((handleUpload ⟨[], [r0C6]⟩ "u" [f1C6, f2C6] (fun _ => "x")
        (fun _ => false)).2.1).map (fun r => r.id) = ["x", "x"] ∧
    ((handleUpload ⟨[], [r0C6]⟩ "u" [f1C6, f2C6] (fun _ => "x")
        (fun _ => false)).2.1).map (fun r => r.blobId) = ["blob_x", "blob_x"] ∧
    blobGet (handleUpload ⟨[], [r0C6]⟩ "u" [f1C6, f2C6] (fun _ => "x")
        (fun _ => false)).1.blobs "blob_x" = some [2] ∧
    f1C6.content = [1] := by
  refine ⟨by decide, by decide, by decide, by decide, by decide, by decide⟩

/-- Claim C6 as amended: provided the ids drawn for the batch are
pairwise distinct and the index holds no prior record of this owner, a
successful upload followed by `list(ownerId)` returns exactly the
written records, and each accepted input file's blob, fetched under the
id assigned to it, byte-equals its original content. -/
theorem upload_list_roundtrip (st : Store) (u : String)
    (files : List InputFile) (ids : Nat → String)
    (hids : (assignedIds ids files).Nodup)
    (hown : ∀ r ∈ st.metadata, r.ownerId ≠ u) :
    (handleUpload st u files ids (fun _ => false)).2.2 = .SUCCESS ∧
    listFiles (handleUpload st u files ids (fun _ => false)).1 u =
      (handleUpload st u files ids (fun _ => false)).2.1 ∧
    (handleUpload st u files ids (fun _ => false)).2.1 =
      mkRecords u (assignIds ids 0 (accepted files)) ∧
    ∀ p ∈ assignIds ids 0 (accepted files),
      blobGet (handleUpload st u files ids (fun _ => false)).1.blobs
        ("blob_" ++ p.1) = some p.2.content := by
  have hup := uploadFiles_no_fail u ids files 0 st.blobs
  have hres : handleUpload st u files ids (fun _ => false) =
      (⟨putAll st.blobs (assignIds ids 0 (accepted files)),
        st.metadata ++ mkRecords u (assignIds ids 0 (accepted files))⟩,
       mkRecords u (assignIds ids 0 (accepted files)), .SUCCESS) := by
    simp [handleUpload, hup]
  rw [hres]
  refine ⟨rfl, ?_, rfl, ?_⟩
  · simp only [listFiles, List.filter_append]
    have hold : st.metadata.filter (fun f => f.ownerId == u) = [] := by
      rw [List.filter_eq_nil_iff]
      intro r hr
      simpa using hown r hr
    have hnew : (mkRecords u (assignIds ids 0 (accepted files))).filter
        (fun f => f.ownerId == u) =
        mkRecords u (assignIds ids 0 (accepted files)) := by
      rw [List.filter_eq_self]
      intro r hr
      simp [mkRecords_owner u _ r hr]
    rw [hold, hnew]
    rfl
  · intro p hp
    exact blobGet_putAll (assignIds ids 0 (accepted files)) hids p hp st.blobs

/-- Witness for the amended C6 theorem at a concrete input. -/
theorem upload_list_roundtrip_witness :
    (assignedIds (fun k => toString k) [f1C6w, f2C6w]).Nodup ∧
    ((handleUpload ⟨[], []⟩ "u" [f1C6w, f2C6w] (fun k => toString k)
        (fun _ => false)).2.2 = .SUCCESS ∧
      listFiles (handleUpload ⟨[], []⟩ "u" [f1C6w, f2C6w] (fun k => toString k)
          (fun _ => false)).1 "u" =
        (handleUpload ⟨[], []⟩ "u" [f1C6w, f2C6w] (fun k => toString k)
          (fun _ => false)).2.1 ∧
      (handleUpload ⟨[], []⟩ "u" [f1C6w, f2C6w] (fun k => toString k)
          (fun _ => false)).2.1 =
        mkRecords "u" (assignIds (fun k => toString k) 0
          (accepted [f1C6w, f2C6w])) ∧
      ∀ p ∈ assignIds (fun k => toString k) 0 (accepted [f1C6w, f2C6w]),
        blobGet (handleUpload ⟨[], []⟩ "u" [f1C6w, f2C6w] (fun k => toString k)
            (fun _ => false)).1.blobs ("blob_" ++ p.1) = some p.2.content) :=
  ⟨by decide,
    upload_list_roundtrip ⟨[], []⟩ "u" [f1C6w, f2C6w] (fun k => toString k)
      (by decide) (by intro r hr; simp at hr)⟩

theorem nodup_after_upload (st : Store) (u : String) (files : List InputFile)
    (ids : Nat → String) (wf : String → Bool)
    (hnd : (st.metadata.map (fun r => r.id)).Nodup)
    (hfresh : freshOk st.metadata (Op.upload files ids wf) = true) :
    (((handleUpload st u files ids wf).1.metadata).map (fun r => r.id)).Nodup := by
  simp only [freshOk, Bool.and_eq_true, decide_eq_true_eq, List.all_eq_true] at hfresh
  obtain ⟨hids, hdisj⟩ := hfresh
  cases hrec : uploadFiles u wf ids files 0 st.blobs with
  | err bs => simpa [handleUpload, hrec] using hnd
  | ok bs recs =>
    have hrecs := uploadFiles_ok_records u wf ids files 0 st.blobs bs recs hrec
    subst hrecs
    simp only [handleUpload, hrec, List.map_append]
    rw [List.nodup_append]
    refine ⟨hnd, ?_, ?_⟩
    · rw [mkRecords_map_id]
      exact hids
    · intro a ha hb
      rw [mkRecords_map_id] at hb
      obtain ⟨r, hr, hra⟩ := List.mem_map.mp ha
      have := hdisj a hb r hr
      simp only [Bool.not_eq_true', beq_eq_false_iff_ne] at this
      exact this (hra ▸ rfl)

theorem freshRun_nodup (u : String) :
    ∀ (ops : List Op) (s : Store × List BeeFile),
    ((s.1.metadata).map (fun r => r.id)).Nodup → freshRun u s ops = true →
    (((runOps u s ops).1.metadata).map (fun r => r.id)).Nodup := by
  intro ops
  induction ops with
  | nil => intro s h _; simpa [runOps] using h
  | cons op rest ih =>
    intro s hnd hfr
    simp only [freshRun, Bool.and_eq_true] at hfr
    rw [runOps]
    apply ih _ _ hfr.2
    cases op with
    | upload files ids wf => exact nodup_after_upload s.1 u files ids wf hnd hfr.1
    | remove id df =>
      show (((handleDelete s.1 s.2 id df).store.metadata).map (fun r => r.id)).Nodup
      rcases delete_metadata_cases s.1 s.2 id df with hcase | hcase
      · rw [hcase]; exact hnd
      · rw [hcase]
        exact hnd.sublist ((List.filter_sublist s.1.metadata).map (fun r => r.id))

/-- Claim C9, counterexample: the id generator is `Math.random` with no
uniqueness check, so nothing stops a batch from drawing the same id
twice.  Uploading two files whose drawn ids are both "x" (from the
empty store) leaves the metadata index with two records of id "x":
the claimed invariant fails. -/
theorem metadata_ids_dup_counterexample :
    ((runOps "u" emptyState
        [Op.upload [f1C9, f2C9] (fun _ => "x") (fun _ => false)]).1.metadata).map
        (fun r => r.id) = ["x", "x"] ∧
    ¬ (((runOps "u" emptyState
        [Op.upload [f1C9, f2C9] (fun _ => "x") (fun _ => false)]).1.metadata).map
        (fun r => r.id)).Nodup := by
  refine ⟨by decide, by decide⟩

/-- Claim C9 as amended: after any sequence of upload and remove
operations starting from the empty store, the metadata index never
holds two records with the same id, provided every upload's drawn ids
are pairwise distinct and absent from the index at that point (the
freshness the spec assumes of id generation but the code does not
enforce). -/
theorem metadata_ids_nodup (u : String) (ops : List Op)
    (h : freshRun u emptyState ops = true) :
    (((runOps u emptyState ops).1.metadata).map (fun r => r.id)).Nodup :=
  freshRun_nodup u ops emptyState (by simp [emptyState]) h

/-- Witness for the amended C9 theorem: a fresh two-file upload followed
by a remove keeps the ids duplicate-free. -/
theorem metadata_ids_nodup_witness :
    freshRun "u" emptyState opsC9w = true ∧
    (((runOps "u" emptyState opsC9w).1.metadata).map (fun r => r.id)).Nodup :=
  ⟨by decide, metadata_ids_nodup "u" opsC9w (by decide)⟩

theorem isPrefixOf_head (a b : Char) (as bs l : List Char)
    (h1 : (a :: as).isPrefixOf l = true) (h2 : (b :: bs).isPrefixOf l = true) :
    a = b := by
  cases l with
  | nil => simp [List.isPrefixOf] at h1
  | cons c cs =>
    simp only [List.isPrefixOf, Bool.and_eq_true, beq_iff_eq] at h1 h2
    exact h1.1.trans h2.1.symm

theorem video_not_image (s : String) (h : strStartsWith s "video/" = true) :
    strStartsWith s "image/" = false := by
  by_contra hne
  have himg : strStartsWith s "image/" = true := by
    cases hb : strStartsWith s "image/"
    · exact absurd hb hne
    · rfl
  have hv : ('v' :: "ideo/".data).isPrefixOf s.data = true := h
  have hi : ('i' :: "mage/".data).isPrefixOf s.data = true := himg
  have hvi : 'v' = 'i' := isPrefixOf_head _ _ _ _ _ hv hi
  exact absurd hvi (by decide)

/-- Claim C4, counterexample: the third classification rule of the code
matches the substring "sheet", not "spreadsheet" as the claim states.
The mime string "application/x-sheet" has none of the claim's five
substrings (and no image/ or video/ prefix), so the claim maps it to
others, but the code returns documents. -/
theorem detectCategory_sheet_counterexample :
    detectCategory "application/x-sheet" = .documents ∧
    classifySpecC4 "application/x-sheet" = .others ∧
    detectCategory "application/x-sheet" ≠
      classifySpecC4 "application/x-sheet" := by
  refine ⟨by decide, by decide, by decide⟩

/-- Claim C4 as amended: `detectCategory` is a pure deterministic
function on mime strings; `image/`-prefixed strings map to images,
`video/`-prefixed strings map to videos, and otherwise a string maps
to documents exactly when it contains one of the substrings pdf, text,
word, presentation, sheet (the code matches "sheet", of which the
claim's "spreadsheet" is a special case), else to others.  In
particular "image/png" is images, "application/pdf" is documents, and
"audio/mpeg" is others. -/
theorem detectCategory_spec :
    detectCategory "image/png" = .images ∧
    detectCategory "application/pdf" = .documents ∧
    detectCategory "audio/mpeg" = .others ∧
    (∀ s t : String, s = t → detectCategory s = detectCategory t) ∧
    (∀ s : String, strStartsWith s "image/" = true →
      detectCategory s = .images) ∧
    (∀ s : String, strStartsWith s "video/" = true →
      detectCategory s = .videos) ∧
    (∀ s : String, strStartsWith s "image/" = false →
      strStartsWith s "video/" = false →
      detectCategory s =
        (if strContains s "pdf" || strContains s "text" ||
            strContains s "word" || strContains s "presentation" ||
            strContains s "sheet" then .documents else .others)) := by
  refine ⟨by decide, by decide, by decide, ?_, ?_, ?_, ?_⟩
  · intro s t h; rw [h]
  · intro s h; simp [detectCategory, h]
  · intro s h; simp [detectCategory, h, video_not_image s h]
  · intro s h1 h2; simp [detectCategory, h1, h2]

/-- Witness for the amended C4 theorem at a concrete input. -/
theorem detectCategory_spec_witness :
    strStartsWith "image/gif" "image/" = true ∧
    detectCategory "image/gif" = .images :=
  ⟨by decide, detectCategory_spec.2.2.2.2.1 "image/gif" (by decide)⟩

/-- Claim C10, counterexample: the unit index is not 4 for every byte
count of at least 1 TiB - at 1024^5 bytes (1 PiB) the computed index is
5 (it is `floor(log1024 bytes)`, which keeps growing), which is also
past the end of the label array. -/
theorem unit_index_counterexample :
    1024 ^ 4 ≤ 1024 ^ 5 ∧ unitIndex (1024 ^ 5) = 5 ∧
    ¬ unitIndex (1024 ^ 5) = 4 := by
  have h5 : unitIndex (1024 ^ 5) = 5 := by
    simp only [unitIndex]
    exact Nat.log_pow (show 1 < 1024 by norm_num) 5
  refine ⟨by norm_num, h5, by omega⟩

/-- Claim C10 as amended: for every byte count of at least 1024^4 the
computed unit index is at least 4 (exactly 4 below 1024^5), which is
past the end of the four-element label array, so the lookup misses and
the rendered unit part is the string "undefined", which is none of the
four labels. -/
theorem unit_index_overflow (b : Nat) (h : 1024 ^ 4 ≤ b) :
    4 ≤ unitIndex b ∧ sizesLabels.get? (unitIndex b) = none ∧
    unitLabel b = "undefined" ∧ (∀ s ∈ sizesLabels, s ≠ "undefined") ∧
    (b < 1024 ^ 5 → unitIndex b = 4) := by
  have h4 : 4 ≤ unitIndex b := by
    simp only [unitIndex]
    exact (Nat.pow_le_iff_le_log (by norm_num) (by positivity)).mp h
  have hnone : sizesLabels.get? (unitIndex b) = none := by
    rw [List.get?_eq_none]
    simpa [sizesLabels] using h4
  refine ⟨h4, hnone, ?_, ?_, ?_⟩
  · rw [unitLabel, hnone]; rfl
  · intro s hs
    simp only [sizesLabels, List.mem_cons, List.not_mem_nil, or_false] at hs
    rcases hs with h | h | h | h <;> subst h <;> decide
  · intro hlt
    simp only [unitIndex]
    exact Nat.log_eq_of_pow_le_of_lt_pow h hlt

theorem int_floor_nat_div (a b : Nat) (hb : 0 < b) :
    ⌊(a : ℚ) / (b : ℚ)⌋ = ((a / b : ℕ) : ℤ) := by
  have hbq : (0:ℚ) < (b:ℚ) := by exact_mod_cast hb
  rw [Int.floor_eq_iff]
  refine ⟨?_, ?_⟩
  · rw [le_div_iff hbq]
    exact_mod_cast Nat.div_mul_le_self a b
  · rw [div_lt_iff hbq]
    have h := (Nat.div_lt_iff_lt_mul hb).mp (Nat.lt_succ_self (a / b))
    exact_mod_cast h

/-- Claim C8: `storageUsage` sums the record sizes, reports the percent
of the fixed 2 GiB quota as min(100, total/quota*100) rounded (half-up)
to one decimal, and formats the total with `formatFileSize`: binary
1024 units labelled Bytes/KB/MB/GB, the value rounded to two decimals
(JavaScript `parseFloat` then drops trailing zeros, so 1.00 prints as
"1"), the unit chosen as the largest power of 1024 at most the byte
count, and "0 Bytes" for zero.  For sizes 1024, 2048, 1024*1024 the
percent renders as "0.0" and the total as "1 MB" (the 1.00-MB class:
the two-decimal value is exactly 100 hundredths with unit MB). -/
theorem storageUsage_spec :
    (∀ files : List BeeFile, storageUsage files =
      (formatFileSize (files.foldl (fun acc f => acc + f.size) 0),
        renderTenths (percentTenths
          (files.foldl (fun acc f => acc + f.size) 0)))) ∧
    (∀ total : Nat, (percentTenths total : ℤ) =
      round (min 100 ((total : ℚ) / (1024 * 1024 * 1024 * 2) * 100) * 10)) ∧
    formatFileSize 0 = "0 Bytes" ∧
    (∀ b : Nat, b ≠ 0 →
      1024 ^ unitIndex b ≤ b ∧ b < 1024 ^ (unitIndex b + 1)) ∧
    storageUsage [szRec 1024, szRec 2048, szRec 1048576] = ("1 MB", "0.0") ∧
    sizeHundredths 1051648 = 100 ∧ unitLabel 1051648 = "MB" := by
  have hlog : unitIndex 1051648 = 2 :=
    Nat.log_eq_of_pow_le_of_lt_pow (by norm_num) (by norm_num)
  have hh : sizeHundredths 1051648 = 100 := by
    simp only [sizeHundredths]
    rw [hlog]
    decide
  have hl : unitLabel 1051648 = "MB" := by
    simp only [unitLabel]
    rw [hlog]
    decide
  have hf : formatFileSize 1051648 = "1 MB" := by
    simp only [formatFileSize, hh, hl]
    decide
  have hsum : List.foldl (fun acc f => acc + f.size) 0
      [szRec 1024, szRec 2048, szRec 1048576] = 1051648 := by decide
  have hp : percentTenths 1051648 = 0 := by decide
  refine ⟨fun files => rfl, ?_, rfl, ?_, ?_, hh, hl⟩
  · intro total
    by_cases h : total ≥ 1024 * 1024 * 1024 * 2
    · rw [percentTenths, if_pos h]
      have h100 : (100:ℚ) ≤ (total : ℚ) / (1024 * 1024 * 1024 * 2) * 100 := by
        rw [div_mul_eq_mul_div, le_div_iff (by norm_num)]
        have hc : ((1024 * 1024 * 1024 * 2 : ℕ) : ℚ) ≤ (total : ℚ) := by
          exact_mod_cast h
        push_cast at hc
        nlinarith
      rw [min_eq_left h100,
        show ((100:ℚ) * 10) = ((1000:ℤ):ℚ) by norm_num, round_intCast]
      norm_num
    · push_neg at h
      rw [percentTenths, if_neg (by omega)]
      have hle : (total : ℚ) / (1024 * 1024 * 1024 * 2) * 100 ≤ 100 := by
        rw [div_mul_eq_mul_div, div_le_iff (by norm_num)]
        have hc : (total:ℚ) ≤ ((1024 * 1024 * 1024 * 2 : ℕ) : ℚ) := by
          exact_mod_cast le_of_lt h
        push_cast at hc
        nlinarith
      rw [min_eq_right hle, round_eq]
      have heq : (total : ℚ) / (1024 * 1024 * 1024 * 2) * 100 * 10 + 1/2 =
          ((2 * (1000 * total) + 1024 * 1024 * 1024 * 2 : ℕ) : ℚ) /
            ((2 * (1024 * 1024 * 1024 * 2) : ℕ) : ℚ) := by
        push_cast
        field_simp
        ring
      rw [heq, int_floor_nat_div _ _ (by norm_num), roundDiv]
  · intro b hb
    simp only [unitIndex]
    exact ⟨Nat.pow_log_le_self 1024 hb,
      Nat.lt_pow_succ_log_self (by norm_num) b⟩
  · simp only [storageUsage, hsum, hf, hp]
    rfl

/-- Witness for the C8 theorem's hypothesis-bearing unit-selection part
at a concrete byte count. -/
theorem storageUsage_spec_witness :
    (1536 : Nat) ≠ 0 ∧
    (1024 ^ unitIndex 1536 ≤ 1536 ∧ 1536 < 1024 ^ (unitIndex 1536 + 1)) :=
  ⟨by decide, storageUsage_spec.2.2.2.1 1536 (by decide)⟩

/-- Witness for the amended C10 theorem at the boundary input 1024^4. -/
theorem unit_index_overflow_witness :
    1024 ^ 4 ≤ 1024 ^ 4 ∧
    (4 ≤ unitIndex (1024 ^ 4) ∧
      sizesLabels.get? (unitIndex (1024 ^ 4)) = none ∧
      unitLabel (1024 ^ 4) = "undefined" ∧
      (∀ s ∈ sizesLabels, s ≠ "undefined") ∧
      (1024 ^ 4 < 1024 ^ 5 → unitIndex (1024 ^ 4) = 4)) :=
  ⟨le_refl _, unit_index_overflow (1024 ^ 4) (le_refl _)⟩

theorem clc_neg : ∀ x y : List Char, charListCompare x y = -(charListCompare y x)
  | [], [] => rfl
  | [], _ :: _ => rfl
  | _ :: _, [] => rfl
  | a :: as, b :: bs => by
    by_cases h1 : a < b
    · have h2 : ¬ b < a := lt_asymm h1
      simp [charListCompare, h1, h2]
    · by_cases h2 : b < a
      · simp [charListCompare, h1, h2]
      · simp only [charListCompare, if_neg h1, if_neg h2]
        exact clc_neg as bs

theorem clc_nil_le : ∀ z : List Char, charListCompare [] z ≤ 0
  | [] => by simp [charListCompare]
  | _ :: _ => by simp [charListCompare]

theorem clc_le_trans : ∀ x y z : List Char,
    charListCompare x y ≤ 0 → charListCompare y z ≤ 0 →
    charListCompare x z ≤ 0
  | [], _, z => fun _ _ => clc_nil_le z
  | _ :: _, [], _ => fun h1 _ => by simp [charListCompare] at h1
  | _ :: _, _ :: _, [] => fun _ h2 => by simp [charListCompare] at h2
  | a :: as, b :: bs, c :: cs => fun h1 h2 => by
    have H1 : a < b ∨ (a = b ∧ charListCompare as bs ≤ 0) := by
      by_cases hab : a < b
      · exact Or.inl hab
      · by_cases hba : b < a
        · simp [charListCompare, hab, hba] at h1
        · refine Or.inr ⟨le_antisymm (not_lt.mp hba) (not_lt.mp hab), ?_⟩
          simpa [charListCompare, hab, hba] using h1
    have H2 : b < c ∨ (b = c ∧ charListCompare bs cs ≤ 0) := by
      by_cases hbc : b < c
      · exact Or.inl hbc
      · by_cases hcb : c < b
        · simp [charListCompare, hbc, hcb] at h2
        · refine Or.inr ⟨le_antisymm (not_lt.mp hcb) (not_lt.mp hbc), ?_⟩
          simpa [charListCompare, hbc, hcb] using h2
    rcases H1 with hab | ⟨hab, has⟩
    · rcases H2 with hbc | ⟨hbc, -⟩
      · have hac : a < c := lt_trans hab hbc
        simp [charListCompare, hac]
      · subst hbc
        simp [charListCompare, hab]
    · subst hab
      rcases H2 with hbc | ⟨hbc, hcs⟩
      · simp [charListCompare, hbc]
      · subst hbc
        simp only [charListCompare, if_neg (lt_irrefl a)]
        exact clc_le_trans as bs cs has hcs

theorem cmpFiles_neg (sb : SortBy) (a b : BeeFile) :
    cmpFiles sb a b = -(cmpFiles sb b a) := by
  cases sb with
  | name => exact clc_neg a.name.data b.name.data
  | size => simp only [cmpFiles]; omega
  | date => simp only [cmpFiles]; omega
  | category =>
    exact clc_neg (categoryName a.category).data (categoryName b.category).data

theorem cmpFiles_le_trans (sb : SortBy) (a b c : BeeFile) :
    cmpFiles sb a b ≤ 0 → cmpFiles sb b c ≤ 0 → cmpFiles sb a c ≤ 0 := by
  cases sb with
  | name => exact clc_le_trans a.name.data b.name.data c.name.data
  | size => simp only [cmpFiles]; omega
  | date => simp only [cmpFiles]; omega
  | category =>
    exact clc_le_trans (categoryName a.category).data
      (categoryName b.category).data (categoryName c.category).data

theorem effCmp_neg (sb : SortBy) (so : SortOrder) (a b : BeeFile) :
    effCmp sb so a b = -(effCmp sb so b a) := by
  cases so with
  | asc => exact cmpFiles_neg sb a b
  | desc => simp only [effCmp]; rw [cmpFiles_neg sb a b]

theorem effCmp_le_trans (sb : SortBy) (so : SortOrder) (a b c : BeeFile) :
    effCmp sb so a b ≤ 0 → effCmp sb so b c ≤ 0 → effCmp sb so a c ≤ 0 := by
  cases so with
  | asc => exact cmpFiles_le_trans sb a b c
  | desc =>
    simp only [effCmp]
    intro h1 h2
    have h1a : cmpFiles sb b a ≤ 0 := by rw [cmpFiles_neg sb b a]; omega
    have h2a : cmpFiles sb c b ≤ 0 := by rw [cmpFiles_neg sb c b]; omega
    have h3 := cmpFiles_le_trans sb c b a h2a h1a
    have h4 := cmpFiles_neg sb a c
    omega

theorem mem_insertSorted {α : Type} (lt : α → α → Bool) (x y : α) :
    ∀ l : List α, y ∈ insertSorted lt x l ↔ y = x ∨ y ∈ l := by
  intro l
  induction l with
  | nil => simp [insertSorted]
  | cons z zs ih =>
    by_cases h : lt z x
    · simp only [insertSorted, if_pos h, List.mem_cons, ih]
      tauto
    · simp only [insertSorted, if_neg h, List.mem_cons]

theorem pairwise_insertSorted {α : Type} (lt : α → α → Bool)
    (hasymm : ∀ a b, lt a b = true → lt b a = false)
    (htrans : ∀ a b c, lt b a = false → lt c b = false → lt c a = false)
    (x : α) : ∀ l : List α, l.Pairwise (fun a b => lt b a = false) →
    (insertSorted lt x l).Pairwise (fun a b => lt b a = false) := by
  intro l
  induction l with
  | nil => intro _; simp [insertSorted]
  | cons z zs ih =>
    intro hp
    rw [List.pairwise_cons] at hp
    by_cases h : lt z x
    · simp only [insertSorted, if_pos h]
      rw [List.pairwise_cons]
      refine ⟨?_, ih hp.2⟩
      intro y hy
      rcases (mem_insertSorted lt x y zs).mp hy with hy | hy
      · rw [hy]; exact hasymm z x h
      · exact hp.1 y hy
    · have hz : lt z x = false := Bool.eq_false_iff.mpr h
      simp only [insertSorted, if_neg h]
      rw [List.pairwise_cons]
      refine ⟨?_, ?_⟩
      · intro y hy
        rcases List.mem_cons.mp hy with hy | hy
        · subst hy; exact hz
        · exact htrans x z y hz (hp.1 y hy)
      · rw [List.pairwise_cons]; exact ⟨hp.1, hp.2⟩

theorem pairwise_sortStable {α : Type} (lt : α → α → Bool)
    (hasymm : ∀ a b, lt a b = true → lt b a = false)
    (htrans : ∀ a b c, lt b a = false → lt c b = false → lt c a = false) :
    ∀ l : List α, (sortStable lt l).Pairwise (fun a b => lt b a = false) := by
  intro l
  induction l with
  | nil => simp [sortStable]
  | cons x xs ih => exact pairwise_insertSorted lt hasymm htrans x _ ih

theorem mem_sortStable {α : Type} (lt : α → α → Bool) (y : α) :
    ∀ l : List α, y ∈ sortStable lt l ↔ y ∈ l := by
  intro l
  induction l with
  | nil => simp [sortStable]
  | cons x xs ih =>
    simp only [sortStable]
    rw [mem_insertSorted lt x y (sortStable lt xs), ih, List.mem_cons]

theorem filter_insertSorted_pos {α : Type} (lt : α → α → Bool) (p : α → Bool)
    (x : α) (hpx : p x = true) :
    ∀ l : List α, (∀ y ∈ l, p y = true → lt y x = false) →
    (insertSorted lt x l).filter p = x :: l.filter p := by
  intro l
  induction l with
  | nil => intro _; simp [insertSorted, hpx]
  | cons z zs ih =>
    intro hl
    by_cases h : lt z x
    · have hpz : p z = false := by
        cases hz : p z
        · rfl
        · rw [hl z (List.mem_cons_self _ _) hz] at h
          exact absurd h (by simp)
      have ihh := ih (fun y hy hp2 => hl y (List.mem_cons_of_mem _ hy) hp2)
      simp only [insertSorted, if_pos h, List.filter_cons, hpz, ihh]
      simp
    · simp only [insertSorted, if_neg h, List.filter_cons, hpx]
      simp

theorem filter_insertSorted_neg {α : Type} (lt : α → α → Bool) (p : α → Bool)
    (x : α) (hpx : p x = false) :
    ∀ l : List α, (insertSorted lt x l).filter p = l.filter p := by
  intro l
  induction l with
  | nil => simp [insertSorted, hpx]
  | cons z zs ih =>
    by_cases h : lt z x
    · simp only [insertSorted, if_pos h, List.filter_cons, ih]
    · simp only [insertSorted, if_neg h, List.filter_cons, hpx]
      simp

theorem filter_sortStable {α : Type} (lt : α → α → Bool) (p : α → Bool) :
    ∀ l : List α,
    (∀ x ∈ l, ∀ y ∈ l, p x = true → p y = true → lt y x = false) →
    (sortStable lt l).filter p = l.filter p := by
  intro l
  induction l with
  | nil => intro _; rfl
  | cons x xs ih =>
    intro hp
    have ihh := ih (fun a ha b hb hpa hpb =>
      hp a (List.mem_cons_of_mem _ ha) b (List.mem_cons_of_mem _ hb) hpa hpb)
    cases hpx : p x with
    | false =>
      simp only [sortStable]
      rw [filter_insertSorted_neg lt p x hpx, ihh, List.filter_cons]
      simp [hpx]
    | true =>
      have hcond : ∀ y ∈ sortStable lt xs, p y = true → lt y x = false := by
        intro y hy hpy
        have hy2 : y ∈ xs := (mem_sortStable lt y xs).mp hy
        exact hp x (List.mem_cons_self _ _) y (List.mem_cons_of_mem _ hy2)
          hpx hpy
      simp only [sortStable]
      rw [filter_insertSorted_pos lt p x hpx (sortStable lt xs) hcond, ihh,
        List.filter_cons]
      simp [hpx]

/-- Claim C7: `filteredFiles` sorts by the selected key - name by
locale-style lexicographic comparison, size and date numerically,
category lexicographically on the category string - with the comparator
negated for descending order; the sort is stable (restricted to any set
of records whose pairwise comparator value is 0, the output order
equals the filtered input order); and on the two-record example with
equal sizes, sorting by size ascending keeps the original order
["b", "a"], while sorting by name ascending yields ["a", "b"]. -/
theorem filteredFiles_sort_spec :
    (∀ (files : List BeeFile) (search : String) (cat : FileCategory)
      (sb : SortBy) (so : SortOrder),
      (filteredFiles files search cat sb so).Pairwise
        (fun a b => effCmp sb so a b ≤ 0)) ∧
    (∀ (sb : SortBy) (a b : BeeFile),
      effCmp sb .desc a b = -(effCmp sb .asc a b)) ∧
    (∀ a b : BeeFile, effCmp .name .asc a b = strCompare a.name b.name) ∧
    (∀ a b : BeeFile,
      effCmp .size .asc a b = (a.size : Int) - (b.size : Int)) ∧
    (∀ a b : BeeFile, effCmp .date .asc a b =
      (a.lastModified : Int) - (b.lastModified : Int)) ∧
    (∀ a b : BeeFile, effCmp .category .asc a b =
      strCompare (categoryName a.category) (categoryName b.category)) ∧
    (∀ (files : List BeeFile) (search : String) (cat : FileCategory)
      (sb : SortBy) (so : SortOrder) (p : BeeFile → Bool),
      (∀ x ∈ files.filter (matchesFilter search cat),
        ∀ y ∈ files.filter (matchesFilter search cat),
        p x = true → p y = true → effCmp sb so x y = 0) →
      (filteredFiles files search cat sb so).filter p =
        (files.filter (matchesFilter search cat)).filter p) ∧
    filteredFiles [recBC7, recAC7] "" .all .size .asc = [recBC7, recAC7] ∧
    filteredFiles [recBC7, recAC7] "" .all .name .asc = [recAC7, recBC7] := by
  have hasymm : ∀ (sb : SortBy) (so : SortOrder) (a b : BeeFile),
      (decide (effCmp sb so a b < 0)) = true →
      (decide (effCmp sb so b a < 0)) = false := by
    intro sb so a b h
    rw [decide_eq_true_eq] at h
    rw [decide_eq_false_iff_not]
    have hneg := effCmp_neg sb so a b
    omega
  have htrans : ∀ (sb : SortBy) (so : SortOrder) (a b c : BeeFile),
      (decide (effCmp sb so b a < 0)) = false →
      (decide (effCmp sb so c b < 0)) = false →
      (decide (effCmp sb so c a < 0)) = false := by
    intro sb so a b c h1 h2
    rw [decide_eq_false_iff_not] at h1 h2 ⊢
    have e1 : effCmp sb so a b ≤ 0 := by
      have hneg := effCmp_neg sb so a b; omega
    have e2 : effCmp sb so b c ≤ 0 := by
      have hneg := effCmp_neg sb so b c; omega
    have e3 := effCmp_le_trans sb so a b c e1 e2
    have hneg := effCmp_neg sb so a c
    omega
  refine ⟨?_, fun sb a b => rfl, fun a b => rfl, fun a b => rfl,
    fun a b => rfl, fun a b => rfl, ?_, by decide, by decide⟩
  · intro files search cat sb so
    have hp := pairwise_sortStable (fun a b => decide (effCmp sb so a b < 0))
      (hasymm sb so) (htrans sb so) (files.filter (matchesFilter search cat))
    simp only [filteredFiles]
    refine hp.imp ?_
    intro a b hab
    rw [decide_eq_false_iff_not] at hab
    have hneg := effCmp_neg sb so a b
    omega
  · intro files search cat sb so p hp0
    simp only [filteredFiles]
    apply filter_sortStable
    intro x hx y hy hpx hpy
    have h0 := hp0 x hx y hy hpx hpy
    rw [decide_eq_false_iff_not]
    have hneg := effCmp_neg sb so x y
    omega

/-- Witness for the C7 theorem's stability part at a concrete input:
both example records have size 10, and the size-ascending sort keeps
their original relative order. -/
theorem filteredFiles_sort_spec_witness :
    (∀ x ∈ [recBC7, recAC7].filter (matchesFilter "" .all),
      ∀ y ∈ [recBC7, recAC7].filter (matchesFilter "" .all),
      (fun r => r.size == 10) x = true → (fun r => r.size == 10) y = true →
      effCmp .size .asc x y = 0) ∧
    (filteredFiles [recBC7, recAC7] "" .all .size .asc).filter
        (fun r => r.size == 10) =
      ([recBC7, recAC7].filter (matchesFilter "" .all)).filter
        (fun r => r.size == 10) :=
  ⟨by decide, filteredFiles_sort_spec.2.2.2.2.2.2.1 [recBC7, recAC7] "" .all
    .size .asc (fun r => r.size == 10) (by decide)⟩

end BeeStore
